import Mathlib

/-!
Verification of the reactive block-model binding layer of a collaborative
block-tree document editor (schema registry, block construction with default
materialization, dual direct/reactive property accessors, deep nested-value
proxying, change notification, and the stash/pop write-diversion buffer).

The repository ships the binding layer's test suite; the layer itself is
modelled here from the specification's component design (schema registry 4.1,
block binding / proxy layer 4.2, stash buffer 4.3, change notification
pipeline 4.4), cross-checked against the behavior the test suite pins down.
-/

/-- A document value stored in the shared (replicated) tree: primitive
scalars, a rich-text primitive instance, an opaque boxed container, and the
two nested container shapes (map and array) that the deep proxy manages. -/
inductive Val where
  | num : Int → Val
  | bool : Bool → Val
  | str : String → Val
  | text : String → Val
  | boxed : List (String × Val) → Val
  | vmap : List (String × Val) → Val
  | varr : List Val → Val

/-- First-match lookup in an association list keyed by strings. -/
def alistGet (l : List (String × Val)) (k : String) : Option Val :=
  match l with
  | [] => none
  | (k1, v) :: rest => if k1 = k then some v else alistGet rest k

/-- Set a key in an association list, replacing the first occurrence or
appending the entry when the key is absent. -/
def alistSet (l : List (String × Val)) (k : String) (v : Val) :
    List (String × Val) :=
  match l with
  | [] => [(k, v)]
  | (k1, w) :: rest =>
      if k1 = k then (k, v) :: rest else (k1, w) :: alistSet rest k v

/-- Remove every entry with the given key from an association list. -/
def alistRemove (l : List (String × Val)) (k : String) :
    List (String × Val) :=
  match l with
  | [] => []
  | (k1, v) :: rest =>
      if k1 = k then alistRemove rest k else (k1, v) :: alistRemove rest k


/-- The reserved key for a user-schema property inside the shared node; the
`sys:` namespace for system fields is disjoint from it. -/
def propKey (p : String) : String := "prop:" ++ p

/-- Errors of the binding layer, per the specification's error taxonomy. -/
inductive BlockSuiteError where
  | duplicateFlavour : String → BlockSuiteError
  | unknownFlavour : String → BlockSuiteError
  | malformedBlock : BlockSuiteError
  | unknownProperty : String → BlockSuiteError
deriving DecidableEq

/-- Modelled from the spec: a flavour's declarative schema (`defineBlockSchema`
is absent from the sources; only its call sites in the test suite remain).
Property defaults are stored as live values: internal-primitive descriptors
(rich text, boxed container) already converted to empty instances. -/
structure BlockSchema where
  flavour : String
  role : String
  version : Nat
  props : List (String × Val)

/-- Modelled from the spec: the append-only schema registry (the `Schema`
class is absent from the sources). -/
structure Schema where
  registered : List BlockSchema

/-- Does the registry contain a schema with this flavour? -/
def containsFlavour (s : Schema) (f : String) : Bool :=
  s.registered.any (fun bs => bs.flavour == f)

/-- Modelled from the spec: `register` fails with `DuplicateFlavourError`
when the flavour is already present, otherwise appends the schema. -/
def Schema.register (s : Schema) (bs : BlockSchema) :
    Except BlockSuiteError Schema :=
  if containsFlavour s bs.flavour then
    .error (.duplicateFlavour bs.flavour)
  else
    .ok ⟨s.registered ++ [bs]⟩

/-- Modelled from the spec: `resolve` returns the registered schema for a
flavour or fails with `UnknownFlavourError`. -/
def Schema.resolve (s : Schema) (f : String) :
    Except BlockSuiteError BlockSchema :=
  match s.registered.find? (fun bs => bs.flavour == f) with
  | some bs => .ok bs
  | none => .error (.unknownFlavour f)

/-- Modelled from the spec: the state of one bound block (the `Block` class
and its proxy layer are absent from the sources). `yBlock` is the shared
node (source of truth), `signals` the per-property reactive-cell cache,
`stashed` the shadow cells of currently stashed properties, and `changes`
the ordered log of emitted `onChange` notifications `(property, newValue)`. -/
structure Block where
  schema : BlockSchema
  yBlock : List (String × Val)
  signals : List (String × Val)
  stashed : List (String × Val)
  changes : List (String × Val)

instance : Inhabited Block :=
  ⟨{ schema := ⟨"", "", 0, []⟩, yBlock := [], signals := [], stashed := [],
     changes := [] }⟩

/-- Is the property currently in stashed mode? -/
def Block.isStashed (b : Block) (p : String) : Bool :=
  (alistGet b.stashed p).isSome

/-- Is `p` a declared property of the block's schema? -/
def hasProp (b : Block) (p : String) : Bool :=
  b.schema.props.any (fun x => x.1 == p)

/-- The direct accessor's read: the shadow cell while stashed, otherwise the
canonical value in the shared node under the property's reserved key. -/
def Block.getDirect (b : Block) (p : String) : Option Val :=
  if b.isStashed p then alistGet b.stashed p
  else alistGet b.yBlock (propKey p)

/-- The reactive accessor's read: the shadow cell while stashed, otherwise
the reactive cell's cached value. -/
def Block.getSignal (b : Block) (p : String) : Option Val :=
  if b.isStashed p then alistGet b.stashed p
  else alistGet b.signals p

/-- Modelled from the spec: the write protocol of the direct accessor
`model.p = v`. An undeclared property fails with `UnknownPropertyError`;
a stashed property diverts the write to the shadow cell only; otherwise the
shared node is written at the reserved key, the reactive cell is updated,
and exactly one `onChange` notification is emitted. -/
def Block.setProp (b : Block) (p : String) (v : Val) :
    Except BlockSuiteError Block :=
  if hasProp b p then
    if b.isStashed p then
      .ok { b with stashed := alistSet b.stashed p v }
    else
      .ok { b with
        yBlock := alistSet b.yBlock (propKey p) v,
        signals := alistSet b.signals p v,
        changes := b.changes ++ [(p, v)] }
  else .error (.unknownProperty p)

/-- Modelled from the spec: the write protocol of the reactive accessor
`model.p$.value = v`, which performs the same write protocol as the direct
accessor. -/
def Block.setSignal (b : Block) (p : String) (v : Val) :
    Except BlockSuiteError Block :=
  if hasProp b p then
    if b.isStashed p then
      .ok { b with stashed := alistSet b.stashed p v }
    else
      .ok { b with
        yBlock := alistSet b.yBlock (propKey p) v,
        signals := alistSet b.signals p v,
        changes := b.changes ++ [(p, v)] }
  else .error (.unknownProperty p)

/-- Modelled from the spec: the deep proxy's handler for `model.p.k = v` on a
nested-map property: a structural edit of the one changed key inside the
shared container, a refresh of that property's cell, and exactly one
`onChange` for that property. `none` when the stored value is not a map. -/
def Block.setNestedKey (b : Block) (p k : String) (v : Val) : Option Block :=
  match alistGet b.yBlock (propKey p) with
  | some (.vmap m) =>
      some { b with
        yBlock := alistSet b.yBlock (propKey p) (.vmap (alistSet m k v)),
        signals := alistSet b.signals p (.vmap (alistSet m k v)),
        changes := b.changes ++ [(p, Val.vmap (alistSet m k v))] }
  | _ => none

/-- Modelled from the spec: the deep proxy's handler for `model.p[i] = v` on
a nested-array property, analogous to `setNestedKey`. -/
def Block.setNestedIdx (b : Block) (p : String) (i : Nat) (v : Val) :
    Option Block :=
  match alistGet b.yBlock (propKey p) with
  | some (.varr a) =>
      some { b with
        yBlock := alistSet b.yBlock (propKey p) (.varr (a.set i v)),
        signals := alistSet b.signals p (.varr (a.set i v)),
        changes := b.changes ++ [(p, Val.varr (a.set i v))] }
  | _ => none

/-- Modelled from the spec: the observer's reaction to external code (a
remote peer or another holder of the raw node) replacing the value under a
property's reserved key: the shared node changes first, then the cell is
re-derived from it and `onChange` fires, with no local write call. While
stashed, the shadow cell is re-seeded from the externally written value,
as the test suite's stash/pop scenario requires. -/
def Block.remoteSet (b : Block) (p : String) (v : Val) : Block :=
  { b with
    yBlock := alistSet b.yBlock (propKey p) v,
    signals := alistSet b.signals p v,
    stashed := if b.isStashed p then alistSet b.stashed p v else b.stashed,
    changes := b.changes ++ [(p, v)] }

/-- Modelled from the spec: the observer's reaction to external code setting
one key inside a nested-map property's shared container directly. -/
def Block.remoteSetNestedKey (b : Block) (p k : String) (v : Val) :
    Option Block :=
  match alistGet b.yBlock (propKey p) with
  | some (.vmap m) =>
      some { b with
        yBlock := alistSet b.yBlock (propKey p) (.vmap (alistSet m k v)),
        signals := alistSet b.signals p (.vmap (alistSet m k v)),
        changes := b.changes ++ [(p, Val.vmap (alistSet m k v))] }
  | _ => none

/-- Insert `s` at character position `i` of `t`. -/
def textInsertStr (t s : String) (i : Nat) : String :=
  ⟨t.data.take i ++ s.data ++ t.data.drop i⟩

/-- Modelled from the spec: in-place mutation of an existing rich-text
primitive instance (`model.p.insert(s, i)`), which the layer observes and
surfaces through the same cell-refresh and `onChange` path as a replacement
write. `none` when the stored value is not a rich-text instance. -/
def Block.textInsert (b : Block) (p : String) (s : String) (i : Nat) :
    Option Block :=
  match alistGet b.yBlock (propKey p) with
  | some (.text t) =>
      some { b with
        yBlock := alistSet b.yBlock (propKey p) (.text (textInsertStr t s i)),
        signals := alistSet b.signals p (.text (textInsertStr t s i)),
        changes := b.changes ++ [(p, Val.text (textInsertStr t s i))] }
  | _ => none

/-- Modelled from the spec: in-place mutation of an entry of an existing
boxed opaque container (`model.p.getValue().set(k, v)`), observed and
surfaced through the same per-property notification path. -/
def Block.boxedSet (b : Block) (p k : String) (v : Val) : Option Block :=
  match alistGet b.yBlock (propKey p) with
  | some (.boxed m) =>
      some { b with
        yBlock := alistSet b.yBlock (propKey p) (.boxed (alistSet m k v)),
        signals := alistSet b.signals p (.boxed (alistSet m k v)),
        changes := b.changes ++ [(p, Val.boxed (alistSet m k v))] }
  | _ => none

/-- Modelled from the spec: `stash(p)` is a no-op when `p` is already
stashed; otherwise it seeds a shadow cell from `p`'s current canonical value
and marks `p` stashed. A property with no stored value cannot be seeded and
is left unstashed. -/
def Block.stash (b : Block) (p : String) : Block :=
  if b.isStashed p then b
  else
    match alistGet b.yBlock (propKey p) with
    | some v => { b with stashed := alistSet b.stashed p v }
    | none => b

/-- Modelled from the spec: `pop(p)` is a no-op when `p` is not stashed;
otherwise it writes the shadow value through to the shared node exactly once
(one cell refresh, one `onChange`) and destroys the stash entry. -/
def Block.pop (b : Block) (p : String) : Block :=
  match alistGet b.stashed p with
  | none => b
  | some v =>
      { b with
        yBlock := alistSet b.yBlock (propKey p) v,
        signals := alistSet b.signals p v,
        stashed := alistRemove b.stashed p,
        changes := b.changes ++ [(p, v)] }

/-- Write each absent schema property's default into the node, preserving
properties the node already has. -/
def initProps (props : List (String × Val)) (node : List (String × Val)) :
    List (String × Val) :=
  match props with
  | [] => node
  | (p, d) :: rest =>
      initProps rest
        (if (alistGet node (propKey p)).isSome then node
         else alistSet node (propKey p) d)

/-- Seed the reactive-cell cache of every schema property from the node. -/
def initSignals (props : List (String × Val)) (node : List (String × Val)) :
    List (String × Val) :=
  props.map (fun pd => (pd.1, (alistGet node (propKey pd.1)).getD pd.2))

/-- Modelled from the spec: `Block` construction. The node must carry the
mandatory system fields `sys:id`, `sys:flavour`, `sys:children`
(`MalformedBlockError` otherwise, also when the flavour field is not a
string); an unregistered flavour fails with `UnknownFlavourError`,
propagated from the registry's `resolve`, per the spec's error taxonomy and
failure conditions. Defaults of absent properties are then materialized
into the node and every reactive cell is seeded. -/
def Block.init (s : Schema) (node : List (String × Val)) :
    Except BlockSuiteError Block :=
  if (alistGet node "sys:id").isSome ∧ (alistGet node "sys:children").isSome
  then
    match alistGet node "sys:flavour" with
    | some (.str f) =>
        match s.resolve f with
        | .ok bs =>
            .ok { schema := bs,
                  yBlock := initProps bs.props node,
                  signals := initSignals bs.props (initProps bs.props node),
                  stashed := [],
                  changes := [] }
        | .error e => .error e
    | some _ => .error .malformedBlock
    | none => .error .malformedBlock
  else .error .malformedBlock

/-- The per-property coherence invariant: outside a stash window, the
reactive cell's cache holds exactly the shared node's value for `p`. -/
def coherentAt (b : Block) (p : String) : Prop :=
  alistGet b.signals p = alistGet b.yBlock (propKey p)

/-- Number of `onChange` notifications emitted so far for property `p`. -/
def countChanges (b : Block) (p : String) : Nat :=
  (b.changes.filter (fun c => c.1 == p)).length

/-- The `page` flavour of the test suite: rich-text `title`, numeric
`count`, boolean `toggle`, nested-map `style`, boxed `boxed`. -/
def pageSchemaDef : BlockSchema :=
  { flavour := "page", role := "root", version := 1,
    props := [("title", .text ""), ("count", .num 0),
              ("toggle", .bool false), ("style", .vmap []),
              ("boxed", .boxed [])] }

/-- The `table` flavour of the test suite: nested-map `cols`, nested-array
`rows`. -/
def tableSchemaDef : BlockSchema :=
  { flavour := "table", role := "content", version := 1,
    props := [("cols", .vmap []), ("rows", .varr [])] }

/-- A registry holding both test flavours. -/
def testRegistry : Schema := ⟨[pageSchemaDef, tableSchemaDef]⟩

/-- A fresh shared node carrying only the mandatory system fields. -/
def testNode : List (String × Val) :=
  [("sys:id", .str "0"), ("sys:flavour", .str "page"),
   ("sys:children", .varr [])]

/-- The page block constructed from `testNode`. -/
def testBlock : Block :=
  match Block.init testRegistry testNode with
  | .ok b => b
  | .error _ => default

/-- A fresh table node. -/
def tableNode : List (String × Val) :=
  [("sys:id", .str "1"), ("sys:flavour", .str "table"),
   ("sys:children", .varr [])]

/-- The table block constructed from `tableNode`. -/
def tableBlock : Block :=
  match Block.init testRegistry tableNode with
  | .ok b => b
  | .error _ => default

/-- One local write to property `p` through either accessor: `w.1 = true`
selects the direct accessor, `false` the reactive accessor. A failing write
leaves the block unchanged. -/
def applyWrite (p : String) (b : Block) (w : Bool × Val) : Block :=
  match (if w.1 then b.setProp p w.2 else b.setSignal p w.2) with
  | .ok b1 => b1
  | .error _ => b

/-- Apply a sequence of local writes to property `p`. -/
def writeAll (b : Block) (p : String) (ws : List (Bool × Val)) : Block :=
  ws.foldl (applyWrite p) b

/-- A table block whose `rows` array holds one row, obtained by a normal
local write. -/
def tableRowsBlock : Block :=
  applyWrite "rows" tableBlock
    (true, .varr [.vmap [("color", .str "yellow")]])

/-- A node carrying all mandatory system fields but an unregistered
flavour. -/
def badFlavourNode : List (String × Val) :=
  [("sys:id", .str "0"), ("sys:flavour", .str "nope"),
   ("sys:children", .varr [])]

theorem alistGet_set_self (l : List (String × Val)) (k : String) (v : Val) :
    alistGet (alistSet l k v) k = some v := by
  induction l with
  | nil => simp [alistGet, alistSet]
  | cons hd tl ih =>
      obtain ⟨k1, w⟩ := hd
      by_cases h : k1 = k
      · simp [alistGet, alistSet, h]
      · simp [alistGet, alistSet, h, ih]

theorem alistGet_set_ne (l : List (String × Val)) (k k' : String) (v : Val)
    (h : k' ≠ k) : alistGet (alistSet l k v) k' = alistGet l k' := by
  have h2 : k ≠ k' := Ne.symm h
  induction l with
  | nil => simp [alistGet, alistSet, h2]
  | cons hd tl ih =>
      obtain ⟨k1, w⟩ := hd
      by_cases h1 : k1 = k
      · subst h1
        simp [alistGet, alistSet, h2]
      · simp [alistGet, alistSet, h1, ih]

theorem alistGet_remove_self (l : List (String × Val)) (k : String) :
    alistGet (alistRemove l k) k = none := by
  induction l with
  | nil => simp [alistGet, alistRemove]
  | cons hd tl ih =>
      obtain ⟨k1, w⟩ := hd
      by_cases h : k1 = k
      · simp [alistRemove, h, ih]
      · simp [alistGet, alistRemove, h, ih]

theorem propKey_inj {p q : String} (h : propKey p = propKey q) : p = q := by
  have hd : ("prop:" ++ p).data = ("prop:" ++ q).data := by
    simpa [propKey] using congrArg String.data h
  rw [String.data_append, String.data_append] at hd
  exact String.ext (List.append_cancel_left hd)

/-- C1: for every schema property `p` and value `v`, when `p` is not
stashed, setting either accessor (`model.p = v` or `model.p$.value = v`,
both of which run the same write protocol) synchronously makes both the
direct and the reactive accessor read `v`, and at any such coherent instant
both views equal the value stored in the shared node under `p`'s reserved
key. -/
theorem dual_accessor_consistency (b : Block) (p : String) (v : Val)
    (hp : hasProp b p = true) (hs : b.isStashed p = false)
    (hc : coherentAt b p) :
    b.getDirect p = b.getSignal p ∧
    b.getSignal p = alistGet b.yBlock (propKey p) ∧
    (∃ b1, b.setProp p v = .ok b1 ∧
      b1.getDirect p = some v ∧ b1.getSignal p = some v ∧
      alistGet b1.yBlock (propKey p) = some v) ∧
    (∃ b1, b.setSignal p v = .ok b1 ∧
      b1.getDirect p = some v ∧ b1.getSignal p = some v ∧
      alistGet b1.yBlock (propKey p) = some v) := by
  simp only [Block.isStashed] at hs
  simp only [coherentAt] at hc
  have hset : b.setProp p v = .ok { b with
      yBlock := alistSet b.yBlock (propKey p) v,
      signals := alistSet b.signals p v,
      changes := b.changes ++ [(p, v)] } := by
    simp [Block.setProp, hp, Block.isStashed, hs]
  have hsetS : b.setSignal p v = .ok { b with
      yBlock := alistSet b.yBlock (propKey p) v,
      signals := alistSet b.signals p v,
      changes := b.changes ++ [(p, v)] } := by
    simp [Block.setSignal, hp, Block.isStashed, hs]
  refine ⟨?_, ?_, ⟨_, hset, ?_, ?_, ?_⟩, ⟨_, hsetS, ?_, ?_, ?_⟩⟩ <;>
    simp [Block.getDirect, Block.getSignal, Block.isStashed, hs, hc,
      alistGet_set_self]

theorem dual_accessor_consistency_witness :
    testBlock.getDirect "count" = testBlock.getSignal "count" ∧
    (∃ b1, testBlock.setProp "count" (.num 1) = .ok b1 ∧
      b1.getSignal "count" = some (.num 1)) ∧
    (∃ b1, testBlock.setSignal "count" (.num 2) = .ok b1 ∧
      b1.getDirect "count" = some (.num 2)) := by
  obtain ⟨h1, h2, ⟨b1, hb1, hd1, hg1, hy1⟩, h4⟩ :=
    dual_accessor_consistency testBlock "count" (.num 1)
      (by rfl) (by rfl) (by rfl)
  obtain ⟨g1, g2, g3, ⟨b2, hb2, hd2, hg2, hy2⟩⟩ :=
    dual_accessor_consistency testBlock "count" (.num 2)
      (by rfl) (by rfl) (by rfl)
  exact ⟨h1, ⟨b1, hb1, hg1⟩, ⟨b2, hb2, hd2⟩⟩

/-- C7: `stash(p)` is idempotent: two consecutive calls equal one, and on an
already-stashed property (whose shadow cell may have diverged) a further
`stash(p)` is the identity, re-seeding nothing. -/
theorem stash_idempotent (b : Block) (p : String) :
    (b.stash p).stash p = b.stash p ∧
    (b.isStashed p = true → b.stash p = b) := by
  constructor
  · by_cases hs : b.isStashed p
    · simp [Block.stash, hs]
    · cases hv : alistGet b.yBlock (propKey p) with
      | none => simp [Block.stash, hs, hv]
      | some v =>
          have h1 : b.stash p = { b with stashed := alistSet b.stashed p v } := by
            simp [Block.stash, hs, hv]
          have h2 : (b.stash p).isStashed p = true := by
            rw [h1]; simp [Block.isStashed, alistGet_set_self]
          generalize hB : b.stash p = B at h2 ⊢
          simp [Block.stash, h2]
  · intro hs; simp [Block.stash, hs]

theorem stash_idempotent_witness :
    ((testBlock.stash "count").setProp "count" (.num 5) matches .ok _) ∧
    (testBlock.stash "count").isStashed "count" = true ∧
    Block.stash (testBlock.stash "count") "count" = testBlock.stash "count" := by
  refine ⟨by rfl, by rfl, ?_⟩
  exact (stash_idempotent (testBlock.stash "count") "count").2 (by rfl)

/-- C8: `register(schema)` fails with `DuplicateFlavourError` exactly when
the flavour is already registered (otherwise it appends the schema, so a
failing call changes nothing), and `resolve(flavour)` fails with
`UnknownFlavourError` exactly when the flavour is absent. -/
theorem registry_error_conditions (s : Schema) (bs : BlockSchema)
    (f : String) :
    (s.register bs = .error (.duplicateFlavour bs.flavour) ↔
      containsFlavour s bs.flavour = true) ∧
    (containsFlavour s bs.flavour = false →
      s.register bs = .ok ⟨s.registered ++ [bs]⟩) ∧
    (s.resolve f = .error (.unknownFlavour f) ↔
      containsFlavour s f = false) := by
  refine ⟨?_, ?_, ?_⟩
  · constructor
    · intro h
      by_contra hc
      rw [Bool.not_eq_true] at hc
      simp [Schema.register, hc] at h
    · intro h
      simp [Schema.register, h]
  · intro h
    simp [Schema.register, h]
  · cases hfind : s.registered.find? (fun x => x.flavour == f) with
    | none =>
        have hall := List.find?_eq_none.mp hfind
        have hcf : containsFlavour s f = false := by
          simp only [containsFlavour, List.any_eq_false]
          intro x hx
          exact hall x hx
        simp [Schema.resolve, hfind, hcf]
    | some x =>
        have hpx := List.find?_some hfind
        have hmem : x ∈ s.registered := List.mem_of_find?_eq_some hfind
        have hcf : containsFlavour s f = true := by
          simp only [containsFlavour, List.any_eq_true]
          exact ⟨x, hmem, hpx⟩
        simp [Schema.resolve, hfind, hcf]

theorem registry_error_conditions_witness :
    containsFlavour testRegistry "page" = true ∧
    testRegistry.register pageSchemaDef =
      .error (.duplicateFlavour "page") ∧
    (⟨[]⟩ : Schema).register pageSchemaDef = .ok ⟨[pageSchemaDef]⟩ ∧
    testRegistry.resolve "nope" = .error (.unknownFlavour "nope") := by
  refine ⟨by rfl, ?_, ?_, ?_⟩
  · exact (registry_error_conditions testRegistry pageSchemaDef "nope").1.mpr
      (by rfl)
  · exact (registry_error_conditions (⟨[]⟩ : Schema) pageSchemaDef "x").2.1
      (by rfl)
  · exact (registry_error_conditions testRegistry pageSchemaDef "nope").2.2.mpr
      (by rfl)

theorem applyWrite_stashed (b : Block) (p : String) (w : Bool × Val)
    (hp : hasProp b p = true) (hs : b.isStashed p = true) :
    applyWrite p b w = { b with stashed := alistSet b.stashed p w.2 } := by
  obtain ⟨acc, v⟩ := w
  cases acc <;> simp [applyWrite, Block.setProp, Block.setSignal, hp, hs]

theorem writeAll_stashed (p : String) (ws : List (Bool × Val)) :
    ∀ b : Block, hasProp b p = true → b.isStashed p = true →
    (writeAll b p ws).schema = b.schema ∧
    (writeAll b p ws).yBlock = b.yBlock ∧
    (writeAll b p ws).changes = b.changes ∧
    (writeAll b p ws).isStashed p = true := by
  induction ws with
  | nil => exact fun b hp hs => ⟨rfl, rfl, rfl, hs⟩
  | cons w rest ih =>
      intro b hp hs
      have hb1 : writeAll b p (w :: rest) =
          writeAll (applyWrite p b w) p rest := rfl
      rw [hb1, applyWrite_stashed b p w hp hs]
      have hs1 : ({ b with stashed := alistSet b.stashed p w.2 } :
          Block).isStashed p = true := by
        simp [Block.isStashed, alistGet_set_self]
      exact ih _ hp hs1

theorem writeAll_last (b : Block) (p : String) (ws : List (Bool × Val))
    (w : Bool × Val) (hp : hasProp b p = true) (hs : b.isStashed p = true) :
    alistGet (writeAll b p (ws ++ [w])).stashed p = some w.2 := by
  have h := writeAll_stashed p ws b hp hs
  have hp1 : hasProp (writeAll b p ws) p = true := by
    unfold hasProp at hp ⊢
    rw [h.1]
    exact hp
  have hstep := applyWrite_stashed (writeAll b p ws) p w hp1 h.2.2.2
  have happ : writeAll b p (ws ++ [w]) =
      applyWrite p (writeAll b p ws) w := by
    simp [writeAll, List.foldl_append]
  rw [happ, hstep]
  simp [alistGet_set_self]

/-- C2: after `stash(p)`, any number of writes to `p` through either
accessor leave the shared node's stored value for `p` unchanged (and emit no
notification); after `pop(p)`, the shared node holds the last shadow value
written, written through exactly once (one notification appended). -/
theorem stash_isolation (b : Block) (p : String) (ws : List (Bool × Val))
    (w : Bool × Val) (hp : hasProp b p = true) (hs : b.isStashed p = true) :
    alistGet (writeAll b p (ws ++ [w])).yBlock (propKey p) =
      alistGet b.yBlock (propKey p) ∧
    (writeAll b p (ws ++ [w])).changes = b.changes ∧
    alistGet ((writeAll b p (ws ++ [w])).pop p).yBlock (propKey p) =
      some w.2 ∧
    ((writeAll b p (ws ++ [w])).pop p).changes = b.changes ++ [(p, w.2)] := by
  have h := writeAll_stashed p (ws ++ [w]) b hp hs
  have hlast := writeAll_last b p ws w hp hs
  refine ⟨by rw [h.2.1], h.2.2.1, ?_, ?_⟩
  · simp [Block.pop, hlast, alistGet_set_self]
  · simp [Block.pop, hlast, h.2.2.1]

theorem stash_isolation_witness :
    alistGet (writeAll (testBlock.stash "count") "count"
        ([(true, .num 1)] ++ [(false, .num 2)])).yBlock (propKey "count") =
      alistGet (testBlock.stash "count").yBlock (propKey "count") ∧
    alistGet ((writeAll (testBlock.stash "count") "count"
        ([(true, .num 1)] ++ [(false, .num 2)])).pop "count").yBlock
        (propKey "count") = some (.num 2) ∧
    alistGet (testBlock.stash "count").yBlock (propKey "count") =
      some (.num 0) := by
  have h := stash_isolation (testBlock.stash "count") "count"
    [(true, .num 1)] (false, .num 2) (by rfl) (by rfl)
  exact ⟨h.1, h.2.2.1, by rfl⟩

/-- C3: mutating one key of a nested-map property (or one index of a
nested-array property) through the deep proxy fires the change notification
for that property exactly once and fires none for any other property. -/
theorem nested_mutation_granularity :
    (∀ (b : Block) (p k : String) (v : Val) (m : List (String × Val)),
      alistGet b.yBlock (propKey p) = some (.vmap m) →
      ∃ b1, b.setNestedKey p k v = some b1 ∧
        countChanges b1 p = countChanges b p + 1 ∧
        (∀ q, q ≠ p → countChanges b1 q = countChanges b q)) ∧
    (∀ (b : Block) (p : String) (i : Nat) (v : Val) (a : List Val),
      alistGet b.yBlock (propKey p) = some (.varr a) → i < a.length →
      ∃ b1, b.setNestedIdx p i v = some b1 ∧
        countChanges b1 p = countChanges b p + 1 ∧
        (∀ q, q ≠ p → countChanges b1 q = countChanges b q)) := by
  constructor
  · intro b p k v m hm
    have hset : b.setNestedKey p k v = some { b with
        yBlock := alistSet b.yBlock (propKey p) (.vmap (alistSet m k v)),
        signals := alistSet b.signals p (.vmap (alistSet m k v)),
        changes := b.changes ++ [(p, Val.vmap (alistSet m k v))] } := by
      simp [Block.setNestedKey, hm]
    refine ⟨_, hset, ?_, ?_⟩
    · simp [countChanges, List.filter_append]
    · intro q hq
      have hpq : (p == q) = false := beq_eq_false_iff_ne.mpr (Ne.symm hq)
      simp [countChanges, List.filter_append, hpq]
  · intro b p i v a ha hi
    have hset : b.setNestedIdx p i v = some { b with
        yBlock := alistSet b.yBlock (propKey p) (.varr (a.set i v)),
        signals := alistSet b.signals p (.varr (a.set i v)),
        changes := b.changes ++ [(p, Val.varr (a.set i v))] } := by
      simp [Block.setNestedIdx, ha]
    refine ⟨_, hset, ?_, ?_⟩
    · simp [countChanges, List.filter_append]
    · intro q hq
      have hpq : (p == q) = false := beq_eq_false_iff_ne.mpr (Ne.symm hq)
      simp [countChanges, List.filter_append, hpq]

theorem nested_mutation_granularity_witness :
    (∃ b1, tableBlock.setNestedKey "cols" "1" (.vmap [("color", .str "red")])
        = some b1 ∧
      countChanges b1 "cols" = countChanges tableBlock "cols" + 1 ∧
      countChanges b1 "rows" = countChanges tableBlock "rows") ∧
    (∃ b1, tableRowsBlock.setNestedIdx "rows" 0
        (.vmap [("color", .str "green")]) = some b1 ∧
      countChanges b1 "rows" = countChanges tableRowsBlock "rows" + 1 ∧
      countChanges b1 "cols" = countChanges tableRowsBlock "cols") := by
  constructor
  · obtain ⟨b1, hset, honce, hothers⟩ :=
      nested_mutation_granularity.1 tableBlock "cols" "1"
        (.vmap [("color", .str "red")]) [] (by rfl)
    exact ⟨b1, hset, honce, hothers "rows" (by decide)⟩
  · obtain ⟨b1, hset, honce, hothers⟩ :=
      nested_mutation_granularity.2 tableRowsBlock "rows" 0
        (.vmap [("color", .str "green")])
        [.vmap [("color", .str "yellow")]] (by rfl) (by decide)
    exact ⟨b1, hset, honce, hothers "cols" (by decide)⟩

/-- C4: when external code holding the raw shared node mutates it directly
(setting one key inside a nested container, or replacing a property's whole
value), the property's reactive cell and direct accessor reflect the new
value and one `onChange` notification fires, with no local write call
involved (`remoteSet`/`remoteSetNestedKey` model the observer reaction and
are distinct from the local write protocol). -/
theorem remote_mutation_observed :
    (∀ (b : Block) (p k : String) (v : Val) (m : List (String × Val)),
      b.isStashed p = false →
      alistGet b.yBlock (propKey p) = some (.vmap m) →
      ∃ b1, b.remoteSetNestedKey p k v = some b1 ∧
        b1.getSignal p = some (.vmap (alistSet m k v)) ∧
        b1.getDirect p = some (.vmap (alistSet m k v)) ∧
        b1.changes = b.changes ++ [(p, Val.vmap (alistSet m k v))]) ∧
    (∀ (b : Block) (p : String) (v : Val),
      b.isStashed p = false →
      (b.remoteSet p v).getSignal p = some v ∧
      (b.remoteSet p v).getDirect p = some v ∧
      (b.remoteSet p v).changes = b.changes ++ [(p, v)]) := by
  constructor
  · intro b p k v m hs hm
    simp only [Block.isStashed] at hs
    have hset : b.remoteSetNestedKey p k v = some { b with
        yBlock := alistSet b.yBlock (propKey p) (.vmap (alistSet m k v)),
        signals := alistSet b.signals p (.vmap (alistSet m k v)),
        changes := b.changes ++ [(p, Val.vmap (alistSet m k v))] } := by
      simp [Block.remoteSetNestedKey, hm]
    refine ⟨_, hset, ?_, ?_, rfl⟩ <;>
      simp [Block.getSignal, Block.getDirect, Block.isStashed, hs,
        alistGet_set_self]
  · intro b p v hs
    simp only [Block.isStashed] at hs
    refine ⟨?_, ?_, ?_⟩ <;>
      simp [Block.remoteSet, Block.getSignal, Block.getDirect,
        Block.isStashed, hs, alistGet_set_self]

theorem remote_mutation_observed_witness :
    (∃ b1, testBlock.remoteSetNestedKey "style" "color" (.str "green")
        = some b1 ∧
      b1.getSignal "style" =
        some (.vmap [("color", .str "green")]) ∧
      b1.changes = testBlock.changes ++
        [("style", Val.vmap [("color", .str "green")])]) ∧
    (testBlock.remoteSet "count" (.num 3)).getSignal "count" =
      some (.num 3) ∧
    (testBlock.remoteSet "count" (.num 3)).getDirect "count" =
      some (.num 3) := by
  constructor
  · obtain ⟨b1, hset, hsig, hdir, hch⟩ :=
      remote_mutation_observed.1 testBlock "style" "color" (.str "green") []
        (by rfl) (by rfl)
    exact ⟨b1, hset, hsig, hch⟩
  · obtain ⟨hsig, hdir, hch⟩ :=
      remote_mutation_observed.2 testBlock "count" (.num 3) (by rfl)
    exact ⟨hsig, hdir⟩

theorem initProps_preserved (props : List (String × Val)) :
    ∀ node k w, alistGet node k = some w →
    alistGet (initProps props node) k = some w := by
  induction props with
  | nil => exact fun node k w h => h
  | cons pd rest ih =>
      intro node k w h
      obtain ⟨p, d⟩ := pd
      simp only [initProps]
      by_cases hpres : (alistGet node (propKey p)).isSome = true
      · rw [if_pos hpres]
        exact ih node k w h
      · have hne : k ≠ propKey p := by
          intro he
          have hw : alistGet node (propKey p) = some w := he ▸ h
          simp [hw] at hpres
        rw [if_neg hpres]
        exact ih _ k w (by rw [alistGet_set_ne _ _ _ _ hne]; exact h)

theorem initProps_default (props : List (String × Val)) :
    ∀ node p d, alistGet props p = some d →
    alistGet node (propKey p) = none →
    alistGet (initProps props node) (propKey p) = some d := by
  induction props with
  | nil => intro node p d h; simp [alistGet] at h
  | cons pd rest ih =>
      intro node p d h habs
      obtain ⟨p1, d1⟩ := pd
      simp only [initProps]
      by_cases hp1 : p1 = p
      · subst hp1
        have hd : d1 = d := by simpa [alistGet] using h
        subst hd
        rw [if_neg (by simp [habs])]
        exact initProps_preserved rest _ _ _
          (alistGet_set_self node (propKey p1) d1)
      · have h' : alistGet rest p = some d := by simpa [alistGet, hp1] using h
        by_cases hpres : (alistGet node (propKey p1)).isSome = true
        · rw [if_pos hpres]
          exact ih node p d h' habs
        · have hne : propKey p ≠ propKey p1 :=
            fun he => hp1 (propKey_inj he).symm
          rw [if_neg hpres]
          exact ih _ p d h'
            (by rw [alistGet_set_ne _ _ _ _ hne]; exact habs)

theorem initSignals_get (props : List (String × Val))
    (node : List (String × Val)) (p : String) (d : Val)
    (h : alistGet props p = some d) :
    alistGet (initSignals props node) p =
      some ((alistGet node (propKey p)).getD d) := by
  induction props with
  | nil => simp [alistGet] at h
  | cons pd rest ih =>
      obtain ⟨p1, d1⟩ := pd
      by_cases hp1 : p1 = p
      · subst hp1
        have hd : d1 = d := by simpa [alistGet] using h
        subst hd
        simp [initSignals, alistGet]
      · have h' : alistGet rest p = some d := by simpa [alistGet, hp1] using h
        simpa [initSignals, alistGet, hp1] using ih h'

/-- C5: constructing a `Block` from a well-formed node lacking a schema
property `p` yields, post-construction, `model.p` (both views) equal to the
schema's default for `p`, with the shared node holding that same value under
`p`'s reserved key; a property already present on the node keeps its
existing value. -/
theorem defaults_materialized (s : Schema) (node : List (String × Val))
    (f : String) (bs : BlockSchema) (p : String) (d : Val)
    (hid : (alistGet node "sys:id").isSome = true)
    (hch : (alistGet node "sys:children").isSome = true)
    (hfl : alistGet node "sys:flavour" = some (.str f))
    (hres : s.resolve f = .ok bs)
    (hd : alistGet bs.props p = some d) :
    ∃ b, Block.init s node = .ok b ∧
      (alistGet node (propKey p) = none →
        alistGet b.yBlock (propKey p) = some d ∧
        b.getDirect p = some d ∧ b.getSignal p = some d) ∧
      (∀ w, alistGet node (propKey p) = some w →
        alistGet b.yBlock (propKey p) = some w ∧
        b.getDirect p = some w ∧ b.getSignal p = some w) := by
  have hinit : Block.init s node =
      .ok { schema := bs,
            yBlock := initProps bs.props node,
            signals := initSignals bs.props (initProps bs.props node),
            stashed := [], changes := [] } := by
    simp [Block.init, hid, hch, hfl, hres]
  refine ⟨_, hinit, ?_, ?_⟩
  · intro habs
    have hy := initProps_default bs.props node p d hd habs
    have hsig := initSignals_get bs.props (initProps bs.props node) p d hd
    refine ⟨hy, ?_, ?_⟩
    · simp [Block.getDirect, Block.isStashed, alistGet, hy]
    · simp [Block.getSignal, Block.isStashed, alistGet, hsig, hy]
  · intro w hw
    have hy := initProps_preserved bs.props node (propKey p) w hw
    have hsig := initSignals_get bs.props (initProps bs.props node) p d hd
    refine ⟨hy, ?_, ?_⟩
    · simp [Block.getDirect, Block.isStashed, alistGet, hy]
    · simp [Block.getSignal, Block.isStashed, alistGet, hsig, hy]

theorem defaults_materialized_witness :
    (∃ b, Block.init testRegistry testNode = .ok b ∧
      alistGet b.yBlock (propKey "count") = some (.num 0) ∧
      b.getDirect "count" = some (.num 0) ∧
      b.getSignal "count" = some (.num 0)) ∧
    (∃ b, Block.init testRegistry (("prop:count", Val.num 7) :: testNode)
        = .ok b ∧
      alistGet b.yBlock (propKey "count") = some (.num 7)) := by
  constructor
  · obtain ⟨b, hb, habs, hpres⟩ := defaults_materialized testRegistry
      testNode "page" pageSchemaDef "count" (.num 0)
      (by rfl) (by rfl) (by rfl) (by rfl) (by rfl)
    obtain ⟨hy, hdt, hsg⟩ := habs (by rfl)
    exact ⟨b, hb, hy, hdt, hsg⟩
  · obtain ⟨b, hb, habs, hpres⟩ := defaults_materialized testRegistry
      (("prop:count", Val.num 7) :: testNode) "page" pageSchemaDef "count"
      (.num 0) (by rfl) (by rfl) (by rfl) (by rfl) (by rfl)
    obtain ⟨hy, _, _⟩ := hpres (.num 7) (by rfl)
    exact ⟨b, hb, hy⟩

/-- C6: in-place mutation of an existing rich-text instance (inserting text)
or of an existing boxed container (setting an inner entry) fires the
property's `onChange` exactly once and refreshes the reactive cell, just as
assigning a wholly new instance does. -/
theorem inplace_primitive_mutation :
    (∀ (b : Block) (p s : String) (i : Nat) (t : String),
      b.isStashed p = false →
      alistGet b.yBlock (propKey p) = some (.text t) →
      ∃ b1, b.textInsert p s i = some b1 ∧
        b1.getSignal p = some (.text (textInsertStr t s i)) ∧
        b1.getDirect p = some (.text (textInsertStr t s i)) ∧
        b1.changes = b.changes ++ [(p, Val.text (textInsertStr t s i))]) ∧
    (∀ (b : Block) (p k : String) (v : Val) (m : List (String × Val)),
      b.isStashed p = false →
      alistGet b.yBlock (propKey p) = some (.boxed m) →
      ∃ b1, b.boxedSet p k v = some b1 ∧
        b1.getSignal p = some (.boxed (alistSet m k v)) ∧
        b1.getDirect p = some (.boxed (alistSet m k v)) ∧
        b1.changes = b.changes ++ [(p, Val.boxed (alistSet m k v))]) := by
  constructor
  · intro b p s i t hs ht
    simp only [Block.isStashed] at hs
    have hset : b.textInsert p s i = some { b with
        yBlock := alistSet b.yBlock (propKey p) (.text (textInsertStr t s i)),
        signals := alistSet b.signals p (.text (textInsertStr t s i)),
        changes := b.changes ++ [(p, Val.text (textInsertStr t s i))] } := by
      simp [Block.textInsert, ht]
    refine ⟨_, hset, ?_, ?_, rfl⟩ <;>
      simp [Block.getSignal, Block.getDirect, Block.isStashed, hs,
        alistGet_set_self]
  · intro b p k v m hs hm
    simp only [Block.isStashed] at hs
    have hset : b.boxedSet p k v = some { b with
        yBlock := alistSet b.yBlock (propKey p) (.boxed (alistSet m k v)),
        signals := alistSet b.signals p (.boxed (alistSet m k v)),
        changes := b.changes ++ [(p, Val.boxed (alistSet m k v))] } := by
      simp [Block.boxedSet, hm]
    refine ⟨_, hset, ?_, ?_, rfl⟩ <;>
      simp [Block.getSignal, Block.getDirect, Block.isStashed, hs,
        alistGet_set_self]

theorem inplace_primitive_mutation_witness :
    (∃ b1, testBlock.textInsert "title" "abc" 0 = some b1 ∧
      b1.getSignal "title" = some (.text "abc") ∧
      b1.changes = testBlock.changes ++ [("title", Val.text "abc")]) ∧
    (∃ b1, testBlock.boxedSet "boxed" "foo" (.num 0) = some b1 ∧
      b1.getSignal "boxed" = some (.boxed [("foo", .num 0)]) ∧
      b1.changes = testBlock.changes ++
        [("boxed", Val.boxed [("foo", .num 0)])]) := by
  constructor
  · obtain ⟨b1, hset, hsig, hdir, hch⟩ :=
      inplace_primitive_mutation.1 testBlock "title" "abc" 0 ""
        (by rfl) (by rfl)
    exact ⟨b1, hset, hsig, hch⟩
  · obtain ⟨b1, hset, hsig, hdir, hch⟩ :=
      inplace_primitive_mutation.2 testBlock "boxed" "foo" (.num 0) []
        (by rfl) (by rfl)
    exact ⟨b1, hset, hsig, hch⟩

/-- C9 counterexample: constructing from a node whose flavour matches no
registered schema fails with `UnknownFlavourError` (propagated from the
registry), not with `MalformedBlockError` as the claim states. -/
theorem init_unknown_flavour_counterexample :
    Block.init testRegistry badFlavourNode =
      .error (.unknownFlavour "nope") ∧
    Block.init testRegistry badFlavourNode ≠
      .error .malformedBlock := by
  refine ⟨by rfl, ?_⟩
  intro h
  rw [show Block.init testRegistry badFlavourNode =
    .error (.unknownFlavour "nope") from by rfl] at h
  injection h with h1
  injection h1

/-- C9 (amended): block construction fails with `MalformedBlockError` when
any mandatory system field (`sys:id`, `sys:flavour`, `sys:children`) is
missing from the node, and with `UnknownFlavourError` when the node's
flavour matches no registered schema; on either failure no model is
produced. -/
theorem init_validation (s : Schema) (node : List (String × Val)) :
    ((alistGet node "sys:id" = none ∨ alistGet node "sys:flavour" = none ∨
      alistGet node "sys:children" = none) →
      Block.init s node = .error .malformedBlock) ∧
    (∀ f, alistGet node "sys:flavour" = some (.str f) →
      (alistGet node "sys:id").isSome = true →
      (alistGet node "sys:children").isSome = true →
      containsFlavour s f = false →
      Block.init s node = .error (.unknownFlavour f)) := by
  constructor
  · intro h
    rcases h with h | h | h
    · simp [Block.init, h]
    · by_cases hid : (alistGet node "sys:id").isSome = true
      · by_cases hch : (alistGet node "sys:children").isSome = true
        · simp [Block.init, hid, hch, h]
        · simp [Block.init, hch]
      · simp [Block.init, hid]
    · simp [Block.init, h]
  · intro f hfl hid hch habs
    have hres : s.resolve f = .error (.unknownFlavour f) := by
      cases hfind : s.registered.find? (fun x => x.flavour == f) with
      | none => simp [Schema.resolve, hfind]
      | some x =>
          have hpx := List.find?_some hfind
          have hmem : x ∈ s.registered := List.mem_of_find?_eq_some hfind
          have : containsFlavour s f = true := by
            simp only [containsFlavour, List.any_eq_true]
            exact ⟨x, hmem, hpx⟩
          rw [this] at habs
          exact absurd habs (by simp)
    simp [Block.init, hid, hch, hfl, hres]

theorem init_validation_witness :
    Block.init testRegistry [("sys:id", .str "0")] =
      .error .malformedBlock ∧
    Block.init testRegistry badFlavourNode =
      .error (.unknownFlavour "nope") := by
  constructor
  · exact (init_validation testRegistry [("sys:id", .str "0")]).1
      (Or.inr (Or.inl (by rfl)))
  · exact (init_validation testRegistry badFlavourNode).2 "nope"
      (by rfl) (by rfl) (by rfl) (by rfl)

/-- C10: while `p` is stashed, an external write of `w` to the shared node's
key for `p` becomes visible through both accessors (the shadow cell is
re-seeded from the shared node); a subsequent local write of `v` (here via
the reactive accessor) still leaves the shared node at `w`; `pop(p)` then
commits the shadow value `v` to the shared node. -/
theorem stashed_remote_write (b : Block) (p : String) (v w : Val)
    (hp : hasProp b p = true) (hs : b.isStashed p = true) :
    (b.remoteSet p w).getDirect p = some w ∧
    (b.remoteSet p w).getSignal p = some w ∧
    alistGet (b.remoteSet p w).yBlock (propKey p) = some w ∧
    ∃ b2, (b.remoteSet p w).setSignal p v = .ok b2 ∧
      alistGet b2.yBlock (propKey p) = some w ∧
      b2.getDirect p = some v ∧
      alistGet (b2.pop p).yBlock (propKey p) = some v := by
  simp only [Block.isStashed] at hs
  have hs1 : ((b.remoteSet p w) : Block).isStashed p = true := by
    simp [Block.remoteSet, Block.isStashed, hs, alistGet_set_self]
  have hp1 : hasProp (b.remoteSet p w) p = true := hp
  have hset : (b.remoteSet p w).setSignal p v = .ok { b.remoteSet p w with
      stashed := alistSet (b.remoteSet p w).stashed p v } := by
    simp [Block.setSignal, hp1, hs1]
  have hstash2 : alistGet (alistSet (b.remoteSet p w).stashed p v) p =
      some v := alistGet_set_self _ _ _
  refine ⟨?_, ?_, ?_, ?_⟩
  · simp [Block.getDirect, hs1, Block.remoteSet, Block.isStashed, hs,
      alistGet_set_self]
  · simp [Block.getSignal, hs1, Block.remoteSet, Block.isStashed, hs,
      alistGet_set_self]
  · simp [Block.remoteSet, alistGet_set_self]
  · refine ⟨_, hset, ?_, ?_, ?_⟩
    · simp [Block.remoteSet, alistGet_set_self]
    · simp [Block.getDirect, Block.isStashed, hstash2]
    · simp [Block.pop, hstash2, alistGet_set_self]

theorem stashed_remote_write_witness :
    ((testBlock.stash "count").remoteSet "count" (.num 3)).getDirect "count"
      = some (.num 3) ∧
    ∃ b2, ((testBlock.stash "count").remoteSet "count" (.num 3)).setSignal
        "count" (.num 4) = .ok b2 ∧
      alistGet b2.yBlock (propKey "count") = some (.num 3) ∧
      alistGet (b2.pop "count").yBlock (propKey "count") = some (.num 4) := by
  obtain ⟨hd, hg, hy, b2, hset, hy2, hd2, hpop⟩ :=
    stashed_remote_write (testBlock.stash "count") "count" (.num 4) (.num 3)
      (by rfl) (by rfl)
  exact ⟨hd, b2, hset, hy2, hpop⟩
